import Mathlib

/-
Verification of the queuectl job-queue store (src/queuectl/store.py,
config.py, worker.py) against its natural-language specification.

Shallow embedding conventions:
- A SQLite `jobs` table row becomes a `Job` record; the table is a `List Job`
  (the database enforces `id` as primary key; where a statement needs that
  uniqueness it carries a `Nodup` hypothesis on the list of ids).
- ISO-8601 UTC timestamp strings are compared lexicographically by SQLite;
  for a fixed-format UTC clock this order agrees with chronological order,
  so timestamps are modelled as `Nat`.
- Python `str` payloads (stdout, stderr, last_error) are sequences of
  Unicode code points, modelled as `List Char`; Python slicing `s[:n]`
  is `List.take n`.  Config keys and values and job ids are only compared
  for equality and are modelled as `String`.
- `datetime.now` is an effect; each operation takes the current time `now`
  as an explicit argument.
- A SQL `UPDATE ... WHERE` is a `List.map` that rewrites exactly the rows
  satisfying the WHERE clause.
-/

namespace QueueCtl

/-- Job states, from the CHECK constraint of the `jobs` table. -/
inductive JState where
  | pending
  | processing
  | completed
  | failed
  | dead
deriving DecidableEq, Repr

/-- One row of the `jobs` table (store.py, init_db). -/
structure Job where
  id : String
  command : String
  state : JState
  attempts : Nat
  max_retries : Nat
  created_at : Nat
  updated_at : Nat
  started_at : Option Nat
  finished_at : Option Nat
  result_code : Option Int
  last_error : Option (List Char)
  next_run_at : Option Nat
  stdout : Option (List Char)
  stderr : Option (List Char)
  priority : Int
deriving DecidableEq, Repr

/-- The persistent store: the `jobs` table and the `config` table. -/
structure Store where
  jobs : List Job
  config : List (String × String)
deriving DecidableEq, Repr

def emptyStore : Store := { jobs := [], config := [] }

/-- Input accepted by `Store.enqueue_job` (`job_data` dict): missing
`max_retries` defaults to 3, missing `priority` defaults to 0. -/
structure JobData where
  id : String
  command : String
  max_retries : Option Nat
  next_run_at : Option Nat
  priority : Option Int
deriving DecidableEq, Repr

/-- The row INSERTed by `Store.enqueue_job` (store.py lines 99-110). -/
def newJob (jd : JobData) (now : Nat) : Job :=
  { id := jd.id
    command := jd.command
    state := JState.pending
    attempts := 0
    max_retries := jd.max_retries.getD 3
    created_at := now
    updated_at := now
    started_at := none
    finished_at := none
    result_code := none
    last_error := none
    next_run_at := jd.next_run_at
    stdout := none
    stderr := none
    priority := jd.priority.getD 0 }

/-- `Store.enqueue_job`: INSERT of a fresh pending row.  The `id` column is
the primary key, so inserting an existing id raises `IntegrityError`,
modelled as `none`. -/
def enqueue_job (s : Store) (jd : JobData) (now : Nat) : Option Store :=
  if s.jobs.any (fun k => decide (k.id = jd.id)) then none
  else some { s with jobs := s.jobs ++ [newJob jd now] }

/-- The WHERE clause of the claim SELECT (store.py lines 130-136):
`state='pending' AND (next_run_at IS NULL OR next_run_at <= now)`. -/
def eligible (now : Nat) (j : Job) : Bool :=
  if j.state = JState.pending then
    match j.next_run_at with
    | none => true
    | some t => decide (t ≤ now)
  else false

/-- Strict "comes first" relation of `ORDER BY priority DESC, created_at ASC`:
`beats a b` holds when the ORDER BY places `a` strictly before `b`. -/
def beats (a b : Job) : Prop :=
  b.priority < a.priority ∨ (a.priority = b.priority ∧ a.created_at < b.created_at)

instance (a b : Job) : Decidable (beats a b) := by
  unfold beats
  infer_instance

/-- `SELECT ... ORDER BY priority DESC, created_at ASC LIMIT 1` over a list
of candidate rows: the first row not strictly beaten by any other. -/
def selectBest : List Job → Option Job
  | [] => none
  | j :: rest =>
    match selectBest rest with
    | none => some j
    | some k => if beats k j then some k else some j

/-- The candidate the claim SELECT returns, if any. -/
def claimSelect (s : Store) (now : Nat) : Option Job :=
  selectBest (s.jobs.filter (eligible now))

/-- The SET list of the conditional claim UPDATE (store.py lines 146-153). -/
def claimUpdate (now : Nat) (k : Job) : Job :=
  { k with
    state := JState.processing
    attempts := k.attempts + 1
    started_at := some now
    updated_at := now }

/-- The conditional UPDATE plus its rowcount check (store.py lines 146-166):
`UPDATE ... WHERE id = ? AND state='pending'`; if it affected zero rows the
transaction is rolled back and no job is returned; otherwise the updated row
is read back (`SELECT * FROM jobs WHERE id = ?`). -/
def claimAttempt (s : Store) (jid : String) (now : Nat) : Option Job × Store :=
  let matched := s.jobs.filter (fun k => decide (k.id = jid ∧ k.state = JState.pending))
  if matched.length = 0 then (none, s)
  else
    let jobs2 := s.jobs.map (fun k =>
      if k.id = jid ∧ k.state = JState.pending then claimUpdate now k else k)
    (jobs2.find? (fun k => decide (k.id = jid)), { s with jobs := jobs2 })

/-- `Store.claim_job` (store.py lines 116-173): select a claimable row, then
conditionally transition it to `processing`. -/
def claim_job (s : Store) (now : Nat) : Option Job × Store :=
  match claimSelect s now with
  | none => (none, s)
  | some j => claimAttempt s j.id now

/-- Python `x[:n] if x else None`: truthiness maps both `None` and the empty
string to `None`; otherwise the first `n` code points are kept. -/
def pyTruncate (n : Nat) (s : Option (List Char)) : Option (List Char) :=
  match s with
  | none => none
  | some t => if t = [] then none else some (t.take n)

/-- `Store.mark_job_completed` (store.py lines 175-198): unconditional
UPDATE by id. -/
def mark_job_completed (s : Store) (jid : String) (rc : Int)
    (stdout stderr : Option (List Char)) (now : Nat) : Store :=
  { s with jobs := s.jobs.map (fun k =>
      if k.id = jid then
        { k with
          state := JState.completed
          result_code := some rc
          finished_at := some now
          updated_at := now
          stdout := pyTruncate 10000 stdout
          stderr := pyTruncate 10000 stderr }
      else k) }

/-- `Store.mark_job_failed` (store.py lines 200-251): branch on
`attempts >= max_retries`; DLQ path sets `dead` with `finished_at`, retry
path sets `pending` with `next_run_at = now + backoff_base ** attempts`. -/
def mark_job_failed (s : Store) (jid : String) (rc : Int) (error : List Char)
    (max_retries backoff_base attempts : Nat)
    (stdout stderr : Option (List Char)) (now : Nat) : Store :=
  let te := pyTruncate 2000 (some error)
  let tso := pyTruncate 10000 stdout
  let tse := pyTruncate 10000 stderr
  if max_retries ≤ attempts then
    { s with jobs := s.jobs.map (fun k =>
        if k.id = jid then
          { k with
            state := JState.dead
            result_code := some rc
            last_error := te
            finished_at := some now
            updated_at := now
            stdout := tso
            stderr := tse }
        else k) }
  else
    { s with jobs := s.jobs.map (fun k =>
        if k.id = jid then
          { k with
            state := JState.pending
            result_code := some rc
            last_error := te
            next_run_at := some (now + backoff_base ^ attempts)
            updated_at := now
            stdout := tso
            stderr := tse }
        else k) }

/-- Error kinds raised by `Store.retry_job` (ValueError messages in
store.py lines 299-303). -/
inductive RetryErr where
  | notFound
  | notInDLQ
deriving DecidableEq, Repr

/-- `Store.retry_job` (store.py lines 289-329): check existence and `dead`
state; on success UPDATE to `pending` with `attempts=0`, `next_run_at=NULL`,
overwriting `max_retries` only when the argument was supplied.  Errors are
raised before any UPDATE, so the store component is returned unchanged. -/
def retry_job (s : Store) (jid : String) (mr : Option Nat) (now : Nat) :
    Option RetryErr × Store :=
  match s.jobs.find? (fun k => decide (k.id = jid)) with
  | none => (some RetryErr.notFound, s)
  | some j =>
    if j.state = JState.dead then
      (none, { s with jobs := s.jobs.map (fun k =>
        if k.id = jid then
          { k with
            state := JState.pending
            attempts := 0
            max_retries := mr.getD k.max_retries
            next_run_at := none
            updated_at := now }
        else k) })
    else (some RetryErr.notInDLQ, s)

/-- Canonical config keys and their defaults (config.py DEFAULTS). -/
def cMaxRetries : String := "max_retries"

def cBackoffBase : String := "backoff_base"

def cPollInterval : String := "worker_poll_interval"

def cDbPath : String := "db_path"

def dMaxRetries : String := "3"

def dBackoffBase : String := "2"

def dPollInterval : String := "1"

def dDbPath : String := "./data/queuectl.db"

def hMaxRetries : String := "max-retries"

def hBackoffBase : String := "backoff-base"

def hPollInterval : String := "worker-poll-interval"

def hDbPath : String := "db-path"

def DEFAULTS : List (String × String) :=
  [(cMaxRetries, dMaxRetries), (cBackoffBase, dBackoffBase),
   (cPollInterval, dPollInterval), (cDbPath, dDbPath)]

def KEY_MAPPING : List (String × String) :=
  [(hMaxRetries, cMaxRetries), (hBackoffBase, cBackoffBase),
   (hPollInterval, cPollInterval), (hDbPath, cDbPath)]

/-- `normalize_config_key` (config.py lines 24-30). -/
def normalize_config_key (key : String) : String :=
  match KEY_MAPPING.find? (fun p => decide (p.1 = key)) with
  | some p => p.2
  | none => key

/-- `Store.set_config` (store.py lines 331-341): `INSERT OR REPLACE` on the
primary key, i.e. replace any existing binding of `key`. -/
def set_config (s : Store) (key value : String) : Store :=
  { s with config := (s.config.filter (fun p => decide (¬ p.1 = key))) ++ [(key, value)] }

/-- `Store.get_config` (store.py lines 343-351): raw lookup in the config
table. -/
def store_get_config (s : Store) (key : String) : Option String :=
  (s.config.find? (fun p => decide (p.1 = key))).map Prod.snd

/-- `get_config` (config.py lines 33-40): normalize the key, read the store,
fall through to DEFAULTS. -/
def get_config (s : Store) (key : String) : Option String :=
  let nk := normalize_config_key key
  match store_get_config s nk with
  | none => (DEFAULTS.find? (fun p => decide (p.1 = nk))).map Prod.snd
  | some v => some v

/-- The worker's failure path (worker.py lines 87-96): it passes the
`attempts` and `max_retries` fields it read back from the claimed job. -/
def workerFailPath (s : Store) (job : Job) (rc : Int) (e : List Char)
    (bb : Nat) (out errs : Option (List Char)) (now : Nat) : Store :=
  mark_job_failed s job.id rc e job.max_retries bb job.attempts out errs now

/-- One store operation, for reasoning about operation sequences. -/
inductive Op where
  | enq (jd : JobData) (now : Nat)
  | claim (now : Nat)
  | complete (jid : String) (rc : Int) (out err : Option (List Char)) (now : Nat)
  | fail (jid : String) (rc : Int) (error : List Char) (mr bb att : Nat)
      (out err : Option (List Char)) (now : Nat)
  | replay (jid : String) (mr : Option Nat) (now : Nat)
  | setConf (k v : String)

/-- Effect of one operation on the store (failed inserts and replay errors
leave the store unchanged, as in the code). -/
def applyOp (s : Store) (op : Op) : Store :=
  match op with
  | Op.enq jd now => (enqueue_job s jd now).getD s
  | Op.claim now => (claim_job s now).2
  | Op.complete jid rc out err now => mark_job_completed s jid rc out err now
  | Op.fail jid rc e mr bb att out err now =>
      mark_job_failed s jid rc e mr bb att out err now
  | Op.replay jid mr now => (retry_job s jid mr now).2
  | Op.setConf k v => set_config s k v

/-- Ghost observer: per id, the number of successful claims since the id's
insert or its last successful DLQ replay. -/
def ghostOp (s : Store) (g : String → Nat) (op : Op) : String → Nat :=
  match op with
  | Op.enq jd now =>
      if (enqueue_job s jd now).isSome then
        fun i => if i = jd.id then 0 else g i
      else g
  | Op.claim now =>
      match claimSelect s now with
      | some j => fun i => if i = j.id then g i + 1 else g i
      | none => g
  | Op.replay jid mr now =>
      if (retry_job s jid mr now).1 = none then
        fun i => if i = jid then 0 else g i
      else g
  | _ => g

/-- Run a sequence of operations from the empty store, tracking the ghost
claim counter. -/
def runOps (ops : List Op) : Store × (String → Nat) :=
  ops.foldl (fun p op => (applyOp p.1 op, ghostOp p.1 p.2 op)) (emptyStore, fun _ => 0)

/-- UTF-8 byte length of a Python string (for the byte-vs-character
truncation question). -/
def byteLen (t : List Char) : Nat := (t.map Char.utf8Size).sum

/-- The trace invariant tying each job's `attempts` column to the ghost
claim counter, together with primary-key uniqueness of ids. -/
def Inv (s : Store) (g : String → Nat) : Prop :=
  (s.jobs.map Job.id).Nodup ∧ ∀ j ∈ s.jobs, j.attempts = g j.id

theorem beats_irrefl {j : Job} : ¬ beats j j := by
  unfold beats
  omega

theorem beats_asymm {a b : Job} (h : beats a b) : ¬ beats b a := by
  unfold beats at *
  omega

theorem not_beats_trans {x k j : Job} (h1 : ¬ beats x k) (h2 : ¬ beats k j) :
    ¬ beats x j := by
  unfold beats at *
  omega

theorem selectBest_mem {l : List Job} {j : Job} (h : selectBest l = some j) :
    j ∈ l := by
  induction l with
  | nil => simp [selectBest] at h
  | cons a rest ih =>
    rw [selectBest] at h
    cases hr : selectBest rest with
    | none =>
      rw [hr] at h
      dsimp only at h
      rw [Option.some.injEq] at h
      subst h
      exact List.mem_cons_self a rest
    | some k =>
      rw [hr] at h
      dsimp only at h
      by_cases hb : beats k a
      · rw [if_pos hb, Option.some.injEq] at h
        subst h
        exact List.mem_cons_of_mem _ (ih hr)
      · rw [if_neg hb, Option.some.injEq] at h
        subst h
        exact List.mem_cons_self a rest

theorem selectBest_eq_none {l : List Job} : selectBest l = none ↔ l = [] := by
  cases l with
  | nil => simp [selectBest]
  | cons a rest =>
    rw [selectBest]
    cases hr : selectBest rest with
    | none => simp
    | some k =>
      dsimp only
      by_cases hb : beats k a
      · rw [if_pos hb]; simp
      · rw [if_neg hb]; simp

theorem selectBest_not_beaten {l : List Job} :
    ∀ {j : Job}, selectBest l = some j → ∀ k ∈ l, ¬ beats k j := by
  induction l with
  | nil => intro j h; simp [selectBest] at h
  | cons a rest ih =>
    intro j h k hk
    rw [selectBest] at h
    cases hr : selectBest rest with
    | none =>
      rw [hr] at h
      dsimp only at h
      rw [Option.some.injEq] at h
      subst h
      rcases List.mem_cons.mp hk with rfl | hk'
      · exact beats_irrefl
      · rw [selectBest_eq_none.mp hr] at hk'
        simp at hk'
    | some m =>
      rw [hr] at h
      dsimp only at h
      by_cases hb : beats m a
      · rw [if_pos hb, Option.some.injEq] at h
        subst h
        rcases List.mem_cons.mp hk with rfl | hk'
        · exact beats_asymm hb
        · exact ih hr k hk'
      · rw [if_neg hb, Option.some.injEq] at h
        subst h
        rcases List.mem_cons.mp hk with rfl | hk'
        · exact beats_irrefl
        · exact not_beats_trans (ih hr k hk') hb

theorem eligible_iff {now : Nat} {j : Job} :
    eligible now j = true ↔
      j.state = JState.pending ∧
        (j.next_run_at = none ∨ ∃ t, j.next_run_at = some t ∧ t ≤ now) := by
  unfold eligible
  by_cases hs : j.state = JState.pending
  · rw [if_pos hs]
    cases hn : j.next_run_at with
    | none => simp [hs]
    | some t => simp [hs, hn]
  · rw [if_neg hs]
    simp [hs]

theorem claimSelect_mem {s : Store} {now : Nat} {j : Job}
    (h : claimSelect s now = some j) : j ∈ s.jobs ∧ eligible now j = true := by
  have hm := selectBest_mem h
  exact ⟨(List.mem_filter.mp hm).1, (List.mem_filter.mp hm).2⟩

theorem claimSelect_optimal {s : Store} {now : Nat} {j : Job}
    (h : claimSelect s now = some j) :
    ∀ k ∈ s.jobs, eligible now k = true →
      k.priority < j.priority ∨ (k.priority = j.priority ∧ j.created_at ≤ k.created_at) := by
  intro k hk he
  unfold claimSelect at h
  have hnb := selectBest_not_beaten h k (List.mem_filter.mpr ⟨hk, he⟩)
  unfold beats at hnb
  omega

theorem mem_map_self {l : List Job} {f : Job → Job} {j : Job} (hj : j ∈ l)
    (hfj : f j = j) : j ∈ l.map f := by
  have h2 := List.mem_map_of_mem f hj
  rw [hfj] at h2
  exact h2

theorem claim_none_of_no_eligible {s : Store} {now : Nat}
    (h : ∀ j ∈ s.jobs, eligible now j = false) : claim_job s now = (none, s) := by
  have hfil : s.jobs.filter (eligible now) = [] := by
    rw [List.filter_eq_nil_iff]
    intro a ha
    rw [h a ha]
    simp
  unfold claim_job claimSelect
  rw [hfil, selectBest]

theorem claim_store_mem {s : Store} {now : Nat} {j' : Job}
    (h : j' ∈ (claim_job s now).2.jobs) :
    j' ∈ s.jobs ∨ ∃ j ∈ s.jobs, j.state = JState.pending ∧ j' = claimUpdate now j := by
  unfold claim_job at h
  cases hc : claimSelect s now with
  | none =>
    rw [hc] at h
    exact Or.inl h
  | some c =>
    rw [hc] at h
    dsimp only at h
    unfold claimAttempt at h
    dsimp only at h
    by_cases hm :
        (s.jobs.filter (fun k => decide (k.id = c.id ∧ k.state = JState.pending))).length = 0
    · rw [if_pos hm] at h
      exact Or.inl h
    · rw [if_neg hm] at h
      obtain ⟨k, hk, hfk⟩ := List.mem_map.mp h
      by_cases hg : k.id = c.id ∧ k.state = JState.pending
      · rw [if_pos hg] at hfk
        exact Or.inr ⟨k, hk, hg.2, hfk.symm⟩
      · rw [if_neg hg] at hfk
        subst hfk
        exact Or.inl hk

theorem claim_nonpending_untouched {s : Store} {now : Nat} {j : Job}
    (hj : j ∈ s.jobs) (hs : ¬ j.state = JState.pending) :
    j ∈ (claim_job s now).2.jobs := by
  unfold claim_job
  cases hc : claimSelect s now with
  | none => exact hj
  | some c =>
    dsimp only
    unfold claimAttempt
    dsimp only
    by_cases hm :
        (s.jobs.filter (fun k => decide (k.id = c.id ∧ k.state = JState.pending))).length = 0
    · rw [if_pos hm]
      exact hj
    · rw [if_neg hm]
      refine mem_map_self hj ?_
      dsimp only
      rw [if_neg]
      intro hg
      exact hs hg.2

theorem claim_some_char {s : Store} {now : Nat} {j' : Job}
    (h : (claim_job s now).1 = some j') (hnd : (s.jobs.map Job.id).Nodup) :
    ∃ j ∈ s.jobs, j.state = JState.pending ∧ j' = claimUpdate now j := by
  unfold claim_job at h
  cases hc : claimSelect s now with
  | none =>
    rw [hc] at h
    simp at h
  | some c =>
    rw [hc] at h
    dsimp only at h
    have hcmem := claimSelect_mem hc
    have hcp : c.state = JState.pending := (eligible_iff.mp hcmem.2).1
    unfold claimAttempt at h
    dsimp only at h
    have hcfil : c ∈ s.jobs.filter (fun k => decide (k.id = c.id ∧ k.state = JState.pending)) :=
      List.mem_filter.mpr ⟨hcmem.1, by simp [hcp]⟩
    have hmne :
        ¬ (s.jobs.filter (fun k => decide (k.id = c.id ∧ k.state = JState.pending))).length = 0 := by
      rw [List.length_eq_zero]
      intro hnil
      rw [hnil] at hcfil
      simp at hcfil
    rw [if_neg hmne] at h
    have hj'mem := List.mem_of_find?_eq_some h
    have hj'id : j'.id = c.id := by
      have := List.find?_some h
      simpa using this
    obtain ⟨k, hk, hfk⟩ := List.mem_map.mp hj'mem
    by_cases hg : k.id = c.id ∧ k.state = JState.pending
    · rw [if_pos hg] at hfk
      exact ⟨k, hk, hg.2, hfk.symm⟩
    · rw [if_neg hg] at hfk
      subst hfk
      exact absurd ⟨hj'id, by
        rw [List.inj_on_of_nodup_map hnd hk hcmem.1 hj'id]
        exact hcp⟩ hg

theorem claim_some_of_eligible {s : Store} {now : Nat}
    (h : ∃ j ∈ s.jobs, eligible now j = true) :
    ∃ c j', claimSelect s now = some c ∧ (claim_job s now).1 = some j' ∧ j'.id = c.id := by
  obtain ⟨j0, hj0, he0⟩ := h
  have hfil : j0 ∈ s.jobs.filter (eligible now) := List.mem_filter.mpr ⟨hj0, he0⟩
  have hne : s.jobs.filter (eligible now) ≠ [] := List.ne_nil_of_mem hfil
  cases hc : claimSelect s now with
  | none =>
    unfold claimSelect at hc
    exact absurd (selectBest_eq_none.mp hc) hne
  | some c =>
    have hcmem := claimSelect_mem hc
    have hcp : c.state = JState.pending := (eligible_iff.mp hcmem.2).1
    refine ⟨c, ?_⟩
    unfold claim_job
    rw [hc]
    dsimp only
    unfold claimAttempt
    dsimp only
    have hcfil : c ∈ s.jobs.filter (fun k => decide (k.id = c.id ∧ k.state = JState.pending)) :=
      List.mem_filter.mpr ⟨hcmem.1, by simp [hcp]⟩
    have hmne :
        ¬ (s.jobs.filter (fun k => decide (k.id = c.id ∧ k.state = JState.pending))).length = 0 := by
      rw [List.length_eq_zero]
      intro hnil
      rw [hnil] at hcfil
      simp at hcfil
    rw [if_neg hmne]
    have hmem2 :
        (fun k => if k.id = c.id ∧ k.state = JState.pending then claimUpdate now k else k) c ∈
          s.jobs.map
            (fun k => if k.id = c.id ∧ k.state = JState.pending then claimUpdate now k else k) :=
      List.mem_map_of_mem _ hcmem.1
    have hsome :
        ((s.jobs.map
            (fun k => if k.id = c.id ∧ k.state = JState.pending then claimUpdate now k else k)).find?
          (fun k => decide (k.id = c.id))).isSome := by
      rw [List.find?_isSome]
      refine ⟨_, hmem2, ?_⟩
      dsimp only
      rw [if_pos ⟨rfl, hcp⟩]
      simp [claimUpdate]
    obtain ⟨j', hj'⟩ := Option.isSome_iff_exists.mp hsome
    refine ⟨j', rfl, hj', ?_⟩
    have := List.find?_some hj'
    simpa using this

theorem complete_touched {s : Store} {jid : String} {rc : Int}
    {out err : Option (List Char)} {now : Nat} {j : Job}
    (hj : j ∈ s.jobs) (hid : j.id = jid) :
    ∃ j' ∈ (mark_job_completed s jid rc out err now).jobs,
      j'.id = j.id ∧ j'.state = JState.completed ∧ j'.result_code = some rc ∧
      j'.finished_at = some now ∧ j'.updated_at = now ∧
      j'.stdout = pyTruncate 10000 out ∧ j'.stderr = pyTruncate 10000 err ∧
      j'.attempts = j.attempts ∧ j'.next_run_at = j.next_run_at := by
  unfold mark_job_completed
  dsimp only
  refine ⟨_, List.mem_map_of_mem _ hj, ?_⟩
  dsimp only
  rw [if_pos hid]
  exact ⟨rfl, rfl, rfl, rfl, rfl, rfl, rfl, rfl, rfl⟩

theorem complete_untouched {s : Store} {jid : String} {rc : Int}
    {out err : Option (List Char)} {now : Nat} {j : Job}
    (hj : j ∈ s.jobs) (hid : ¬ j.id = jid) :
    j ∈ (mark_job_completed s jid rc out err now).jobs := by
  unfold mark_job_completed
  dsimp only
  refine mem_map_self hj ?_
  dsimp only
  rw [if_neg hid]

theorem fail_dead_touched {s : Store} {jid : String} {rc : Int} {e : List Char}
    {mr bb att : Nat} {out errs : Option (List Char)} {now : Nat} {j : Job}
    (hge : mr ≤ att) (hj : j ∈ s.jobs) (hid : j.id = jid) :
    ∃ j' ∈ (mark_job_failed s jid rc e mr bb att out errs now).jobs,
      j'.id = j.id ∧ j'.state = JState.dead ∧ j'.result_code = some rc ∧
      j'.finished_at = some now ∧ j'.updated_at = now ∧
      j'.last_error = pyTruncate 2000 (some e) ∧
      j'.stdout = pyTruncate 10000 out ∧ j'.stderr = pyTruncate 10000 errs ∧
      j'.attempts = j.attempts := by
  unfold mark_job_failed
  dsimp only
  rw [if_pos hge]
  refine ⟨_, List.mem_map_of_mem _ hj, ?_⟩
  dsimp only
  rw [if_pos hid]
  exact ⟨rfl, rfl, rfl, rfl, rfl, rfl, rfl, rfl, rfl⟩

theorem fail_retry_touched {s : Store} {jid : String} {rc : Int} {e : List Char}
    {mr bb att : Nat} {out errs : Option (List Char)} {now : Nat} {j : Job}
    (hlt : att < mr) (hj : j ∈ s.jobs) (hid : j.id = jid) :
    ∃ j' ∈ (mark_job_failed s jid rc e mr bb att out errs now).jobs,
      j'.id = j.id ∧ j'.state = JState.pending ∧ j'.result_code = some rc ∧
      j'.next_run_at = some (now + bb ^ att) ∧ j'.updated_at = now ∧
      j'.last_error = pyTruncate 2000 (some e) ∧
      j'.stdout = pyTruncate 10000 out ∧ j'.stderr = pyTruncate 10000 errs ∧
      j'.attempts = j.attempts ∧ j'.finished_at = j.finished_at := by
  unfold mark_job_failed
  dsimp only
  rw [if_neg (by omega : ¬ mr ≤ att)]
  refine ⟨_, List.mem_map_of_mem _ hj, ?_⟩
  dsimp only
  rw [if_pos hid]
  exact ⟨rfl, rfl, rfl, rfl, rfl, rfl, rfl, rfl, rfl, rfl⟩

theorem fail_untouched {s : Store} {jid : String} {rc : Int} {e : List Char}
    {mr bb att : Nat} {out errs : Option (List Char)} {now : Nat} {j : Job}
    (hj : j ∈ s.jobs) (hid : ¬ j.id = jid) :
    j ∈ (mark_job_failed s jid rc e mr bb att out errs now).jobs := by
  unfold mark_job_failed
  dsimp only
  by_cases hge : mr ≤ att
  · rw [if_pos hge]
    refine mem_map_self hj ?_
    dsimp only
    rw [if_neg hid]
  · rw [if_neg hge]
    refine mem_map_self hj ?_
    dsimp only
    rw [if_neg hid]

theorem fail_new_dead {s : Store} {jid : String} {rc : Int} {e : List Char}
    {mr bb att : Nat} {out errs : Option (List Char)} {now : Nat} {j' : Job}
    (h : j' ∈ (mark_job_failed s jid rc e mr bb att out errs now).jobs)
    (hd : j'.state = JState.dead) : j' ∈ s.jobs ∨ mr ≤ att := by
  by_cases hge : mr ≤ att
  · exact Or.inr hge
  · left
    unfold mark_job_failed at h
    dsimp only at h
    rw [if_neg hge] at h
    obtain ⟨k, hk, hfk⟩ := List.mem_map.mp h
    by_cases hg : k.id = jid
    · rw [if_pos hg] at hfk
      rw [← hfk] at hd
      simp at hd
    · rw [if_neg hg] at hfk
      subst hfk
      exact hk

theorem retry_notFound {s : Store} {jid : String} {mr : Option Nat} {now : Nat}
    (h : s.jobs.find? (fun k => decide (k.id = jid)) = none) :
    retry_job s jid mr now = (some RetryErr.notFound, s) := by
  unfold retry_job
  rw [h]

theorem retry_notInDLQ {s : Store} {jid : String} {mr : Option Nat} {now : Nat} {j : Job}
    (hf : s.jobs.find? (fun k => decide (k.id = jid)) = some j)
    (hs : ¬ j.state = JState.dead) :
    retry_job s jid mr now = (some RetryErr.notInDLQ, s) := by
  unfold retry_job
  rw [hf]
  dsimp only
  rw [if_neg hs]

theorem retry_success_fst {s : Store} {jid : String} {mr : Option Nat} {now : Nat} {j : Job}
    (hf : s.jobs.find? (fun k => decide (k.id = jid)) = some j)
    (hd : j.state = JState.dead) : (retry_job s jid mr now).1 = none := by
  unfold retry_job
  rw [hf]
  dsimp only
  rw [if_pos hd]

theorem retry_success_touched {s : Store} {jid : String} {mr : Option Nat} {now : Nat}
    {j k : Job}
    (hf : s.jobs.find? (fun k => decide (k.id = jid)) = some j)
    (hd : j.state = JState.dead) (hk : k ∈ s.jobs) (hid : k.id = jid) :
    ∃ k' ∈ (retry_job s jid mr now).2.jobs,
      k'.id = jid ∧ k'.state = JState.pending ∧ k'.attempts = 0 ∧
      k'.next_run_at = none ∧ k'.updated_at = now ∧
      k'.max_retries = mr.getD k.max_retries := by
  unfold retry_job
  rw [hf]
  dsimp only
  rw [if_pos hd]
  dsimp only
  refine ⟨_, List.mem_map_of_mem _ hk, ?_⟩
  dsimp only
  rw [if_pos hid]
  exact ⟨hid, rfl, rfl, rfl, rfl, rfl⟩

theorem retry_success_fields {s : Store} {jid : String} {mr : Option Nat} {now : Nat} {j' : Job}
    (h1 : (retry_job s jid mr now).1 = none)
    (hj' : j' ∈ (retry_job s jid mr now).2.jobs) (hid : j'.id = jid) :
    j'.next_run_at = none ∧ j'.state = JState.pending ∧ j'.attempts = 0 := by
  unfold retry_job at h1 hj'
  cases hf : s.jobs.find? (fun k => decide (k.id = jid)) with
  | none =>
    rw [hf] at h1
    simp at h1
  | some j =>
    rw [hf] at h1 hj'
    dsimp only at h1 hj'
    by_cases hd : j.state = JState.dead
    · rw [if_pos hd] at hj'
      dsimp only at hj'
      obtain ⟨k, hk, hfk⟩ := List.mem_map.mp hj'
      by_cases hg : k.id = jid
      · rw [if_pos hg] at hfk
        rw [← hfk]
        exact ⟨rfl, rfl, rfl⟩
      · rw [if_neg hg] at hfk
        subst hfk
        exact absurd hid hg
    · rw [if_neg hd] at h1
      simp at h1

theorem retry_unchanged {s : Store} {jid : String} {mr : Option Nat} {now : Nat}
    (h : ∀ j ∈ s.jobs, j.id = jid → ¬ j.state = JState.dead) :
    (retry_job s jid mr now).2 = s := by
  unfold retry_job
  cases hf : s.jobs.find? (fun k => decide (k.id = jid)) with
  | none => rfl
  | some j =>
    dsimp only
    have hjm := List.mem_of_find?_eq_some hf
    have hjid : j.id = jid := by
      have := List.find?_some hf
      simpa using this
    rw [if_neg (h j hjm hjid)]

theorem map_untouched {l : List Job} {f : Job → Job} (h : ∀ j ∈ l, f j = j) :
    l.map f = l := by
  induction l with
  | nil => rfl
  | cons a rest ih =>
    rw [List.map_cons, h a (List.mem_cons_self a rest),
      ih (fun j hj => h j (List.mem_cons_of_mem a hj))]

theorem complete_noop {s : Store} {jid : String} {rc : Int}
    {out err : Option (List Char)} {now : Nat}
    (h : ∀ j ∈ s.jobs, ¬ j.id = jid) :
    mark_job_completed s jid rc out err now = s := by
  unfold mark_job_completed
  rw [map_untouched (fun j hj => by rw [if_neg (h j hj)])]

theorem fail_noop {s : Store} {jid : String} {rc : Int} {e : List Char}
    {mr bb att : Nat} {out errs : Option (List Char)} {now : Nat}
    (h : ∀ j ∈ s.jobs, ¬ j.id = jid) :
    mark_job_failed s jid rc e mr bb att out errs now = s := by
  unfold mark_job_failed
  dsimp only
  by_cases hge : mr ≤ att
  · rw [if_pos hge, map_untouched (fun j hj => by rw [if_neg (h j hj)])]
  · rw [if_neg hge, map_untouched (fun j hj => by rw [if_neg (h j hj)])]

theorem pyTruncate_some {n : Nat} {t : Option (List Char)} {u : List Char}
    (h : pyTruncate n t = some u) :
    u.length ≤ n ∧ ∃ v, t = some v ∧ u = v.take n := by
  cases t with
  | none => simp [pyTruncate] at h
  | some v =>
    unfold pyTruncate at h
    dsimp only at h
    by_cases hv : v = []
    · rw [if_pos hv] at h
      simp at h
    · rw [if_neg hv] at h
      rw [Option.some.injEq] at h
      subst h
      refine ⟨?_, v, rfl, rfl⟩
      rw [List.length_take]
      omega

theorem pyTruncate_exact {n : Nat} {v : List Char} (hne : ¬ v = []) (hlen : n ≤ v.length) :
    pyTruncate n (some v) = some (v.take n) ∧ (v.take n).length = n := by
  unfold pyTruncate
  dsimp only
  rw [if_neg hne]
  refine ⟨rfl, ?_⟩
  rw [List.length_take]
  omega

theorem byteLen_replicate (n : Nat) (c : Char) :
    byteLen (List.replicate n c) = n * c.utf8Size := by
  induction n with
  | zero => simp [byteLen]
  | succ m ih =>
    rw [List.replicate_succ]
    unfold byteLen at *
    rw [List.map_cons, List.sum_cons, ih]
    ring

theorem get_config_set_self {s : Store} {k v : String}
    (hn : normalize_config_key k = k) :
    get_config (set_config s k v) k = some v := by
  have hs : store_get_config (set_config s k v) k = some v := by
    unfold store_get_config set_config
    dsimp only
    rw [List.find?_append]
    have hnone :
        (s.config.filter (fun p => decide (¬ p.1 = k))).find? (fun p => decide (p.1 = k)) =
          none := by
      rw [List.find?_eq_none]
      intro x hx
      have hfx := (List.mem_filter.mp hx).2
      simp only [decide_eq_true_eq] at hfx ⊢
      exact hfx
    rw [hnone]
    simp
  unfold get_config
  dsimp only
  rw [hn, hs]

theorem get_config_normalize_eq {s : Store} {h c : String}
    (hn : normalize_config_key h = c) (hc : normalize_config_key c = c) :
    get_config s h = get_config s c := by
  unfold get_config
  dsimp only
  rw [hn, hc]

theorem inv_map_step {s : Store} {g : String → Nat} {f : Job → Job}
    (hid : ∀ k, (f k).id = k.id) (hat : ∀ k, (f k).attempts = k.attempts)
    (h : Inv s g) : Inv { s with jobs := s.jobs.map f } g := by
  constructor
  · show ((s.jobs.map f).map Job.id).Nodup
    rw [List.map_map]
    have he : s.jobs.map (Job.id ∘ f) = s.jobs.map Job.id :=
      List.map_congr_left (fun a _ => hid a)
    rw [he]
    exact h.1
  · intro j' hj'
    obtain ⟨j, hj, rfl⟩ := List.mem_map.mp hj'
    rw [hat, hid]
    exact h.2 j hj

theorem inv_reset_map {s : Store} {g : String → Nat} {f : Job → Job} {jid : String}
    (hid : ∀ k, (f k).id = k.id)
    (hat : ∀ k, k.id = jid → (f k).attempts = 0)
    (hat2 : ∀ k, ¬ k.id = jid → (f k).attempts = k.attempts)
    (h : Inv s g) :
    Inv { s with jobs := s.jobs.map f } (fun i => if i = jid then 0 else g i) := by
  constructor
  · show ((s.jobs.map f).map Job.id).Nodup
    rw [List.map_map]
    have he : s.jobs.map (Job.id ∘ f) = s.jobs.map Job.id :=
      List.map_congr_left (fun a _ => hid a)
    rw [he]
    exact h.1
  · intro j' hj'
    obtain ⟨k, hk, rfl⟩ := List.mem_map.mp hj'
    dsimp only
    by_cases hg : k.id = jid
    · rw [hat k hg, hid, hg, if_pos rfl]
    · rw [hat2 k hg, hid, if_neg hg]
      exact h.2 k hk

theorem inv_claim_map {s : Store} {g : String → Nat} {c : Job} {now : Nat}
    (hc : c ∈ s.jobs) (hcp : c.state = JState.pending) (h : Inv s g) :
    Inv { s with jobs := s.jobs.map (fun k =>
          if k.id = c.id ∧ k.state = JState.pending then claimUpdate now k else k) }
        (fun i => if i = c.id then g i + 1 else g i) := by
  constructor
  · show ((s.jobs.map
        (fun k => if k.id = c.id ∧ k.state = JState.pending then claimUpdate now k else k)).map
        Job.id).Nodup
    rw [List.map_map]
    have he : s.jobs.map
        (Job.id ∘ fun k => if k.id = c.id ∧ k.state = JState.pending then claimUpdate now k else k) =
        s.jobs.map Job.id :=
      List.map_congr_left (fun a _ => by
        show (if a.id = c.id ∧ a.state = JState.pending then claimUpdate now a else a).id = a.id
        split <;> rfl)
    rw [he]
    exact h.1
  · intro j' hj'
    obtain ⟨k, hk, rfl⟩ := List.mem_map.mp hj'
    dsimp only
    by_cases hg : k.id = c.id ∧ k.state = JState.pending
    · rw [if_pos hg]
      have h1 : (claimUpdate now k).id = k.id := rfl
      have h2 : (claimUpdate now k).attempts = k.attempts + 1 := rfl
      rw [h1, h2, hg.1, if_pos rfl, h.2 k hk, hg.1]
    · rw [if_neg hg]
      by_cases hkid : k.id = c.id
      · exact absurd ⟨hkid, by
          rw [List.inj_on_of_nodup_map h.1 hk hc hkid]
          exact hcp⟩ hg
      · rw [if_neg hkid]
        exact h.2 k hk

theorem inv_step {s : Store} {g : String → Nat} (op : Op) (h : Inv s g) :
    Inv (applyOp s op) (ghostOp s g op) := by
  cases op with
  | setConf k v => exact ⟨h.1, h.2⟩
  | complete jid rc out err now =>
    unfold applyOp mark_job_completed
    dsimp only
    exact inv_map_step (fun k => by split <;> rfl)
      (fun k => by split <;> rfl) h
  | fail jid rc e mr bb att out err now =>
    unfold applyOp mark_job_failed
    dsimp only
    by_cases hge : mr ≤ att
    · rw [if_pos hge]
      exact inv_map_step (fun k => by split <;> rfl)
        (fun k => by split <;> rfl) h
    · rw [if_neg hge]
      exact inv_map_step (fun k => by split <;> rfl)
        (fun k => by split <;> rfl) h
  | enq jd now =>
    unfold applyOp ghostOp
    dsimp only
    cases henq : enqueue_job s jd now with
    | none =>
      simpa using h
    | some s2 =>
      unfold enqueue_job at henq
      by_cases hdup : s.jobs.any (fun k => decide (k.id = jd.id)) = true
      · rw [if_pos hdup] at henq
        exact absurd henq (by simp)
      · rw [if_neg hdup] at henq
        rw [Option.some.injEq] at henq
        subst henq
        simp only [Option.getD_some, Option.isSome_some, if_true]
        constructor
        · show ((s.jobs ++ [newJob jd now]).map Job.id).Nodup
          rw [List.map_append, List.nodup_append]
          refine ⟨h.1, by simp, ?_⟩
          intro a ha hb
          simp only [List.map_cons, List.map_nil, List.mem_singleton] at hb
          subst hb
          obtain ⟨k, hk, hkid⟩ := List.mem_map.mp ha
          apply hdup
          rw [List.any_eq_true]
          refine ⟨k, hk, ?_⟩
          simp only [decide_eq_true_eq]
          exact hkid
        · intro j hj
          rcases List.mem_append.mp hj with hj1 | hj2
          · have hne : ¬ j.id = jd.id := by
              intro he
              apply hdup
              rw [List.any_eq_true]
              exact ⟨j, hj1, by simp [he]⟩
            dsimp only
            rw [if_neg hne]
            exact h.2 j hj1
          · simp only [List.mem_singleton] at hj2
            subst hj2
            dsimp only
            rw [show (newJob jd now).id = jd.id from rfl, if_pos rfl]
            rfl
  | replay jid mr now =>
    unfold applyOp ghostOp
    dsimp only
    cases hf : s.jobs.find? (fun k => decide (k.id = jid)) with
    | none =>
      rw [retry_notFound hf]
      simpa using h
    | some j =>
      by_cases hd : j.state = JState.dead
      · unfold retry_job
        rw [hf]
        dsimp only
        rw [if_pos hd]
        dsimp only
        rw [if_pos rfl]
        exact inv_reset_map (fun k => by split <;> rfl)
          (fun k hg => by rw [if_pos hg])
          (fun k hg => by rw [if_neg hg]) h
      · rw [retry_notInDLQ hf hd]
        simpa using h
  | claim now =>
    unfold applyOp ghostOp claim_job
    dsimp only
    cases hcs : claimSelect s now with
    | none => exact h
    | some c =>
      dsimp only
      unfold claimAttempt
      dsimp only
      have hcm := claimSelect_mem hcs
      have hcp : c.state = JState.pending := (eligible_iff.mp hcm.2).1
      have hcfil : c ∈ s.jobs.filter (fun k => decide (k.id = c.id ∧ k.state = JState.pending)) :=
        List.mem_filter.mpr ⟨hcm.1, by simp [hcp]⟩
      have hmne :
          ¬ (s.jobs.filter (fun k => decide (k.id = c.id ∧ k.state = JState.pending))).length = 0 := by
        rw [List.length_eq_zero]
        intro hnil
        rw [hnil] at hcfil
        simp at hcfil
      rw [if_neg hmne]
      exact inv_claim_map hcm.1 hcp h

theorem runOps_inv (ops : List Op) : Inv (runOps ops).1 (runOps ops).2 := by
  have hgen : ∀ p : Store × (String → Nat), Inv p.1 p.2 →
      Inv (ops.foldl (fun p op => (applyOp p.1 op, ghostOp p.1 p.2 op)) p).1
        (ops.foldl (fun p op => (applyOp p.1 op, ghostOp p.1 p.2 op)) p).2 := by
    induction ops with
    | nil => intro p hp; exact hp
    | cons op rest ih =>
      intro p hp
      rw [List.foldl_cons]
      exact ih _ (inv_step op hp)
  unfold runOps
  exact hgen (emptyStore, fun _ => 0)
    ⟨by simp [emptyStore], by intro j hj; simp [emptyStore] at hj⟩

theorem processing_from_pending {s : Store} (op : Op) {j' : Job}
    (h : j' ∈ (applyOp s op).jobs) (hp : j'.state = JState.processing) :
    j' ∈ s.jobs ∨ ∃ j ∈ s.jobs, ∃ n, j.state = JState.pending ∧ j' = claimUpdate n j := by
  cases op with
  | setConf k v => exact Or.inl h
  | claim now =>
    rcases claim_store_mem h with h1 | ⟨j, hj, hjp, hje⟩
    · exact Or.inl h1
    · exact Or.inr ⟨j, hj, now, hjp, hje⟩
  | enq jd now =>
    unfold applyOp at h
    dsimp only at h
    cases henq : enqueue_job s jd now with
    | none =>
      rw [henq] at h
      exact Or.inl h
    | some s2 =>
      rw [henq] at h
      unfold enqueue_job at henq
      by_cases hdup : s.jobs.any (fun k => decide (k.id = jd.id)) = true
      · rw [if_pos hdup] at henq
        exact absurd henq (by simp)
      · rw [if_neg hdup] at henq
        rw [Option.some.injEq] at henq
        subst henq
        simp only [Option.getD_some] at h
        rcases List.mem_append.mp h with h1 | h2
        · exact Or.inl h1
        · simp only [List.mem_singleton] at h2
          subst h2
          simp [newJob] at hp
  | complete jid rc out err now =>
    unfold applyOp mark_job_completed at h
    dsimp only at h
    obtain ⟨k, hk, hfk⟩ := List.mem_map.mp h
    by_cases hg : k.id = jid
    · rw [if_pos hg] at hfk
      rw [← hfk] at hp
      simp at hp
    · rw [if_neg hg] at hfk
      subst hfk
      exact Or.inl hk
  | fail jid rc e mr bb att out err now =>
    unfold applyOp mark_job_failed at h
    dsimp only at h
    by_cases hge : mr ≤ att
    all_goals
      first
      | (rw [if_pos hge] at h
         obtain ⟨k, hk, hfk⟩ := List.mem_map.mp h
         by_cases hg : k.id = jid
         · rw [if_pos hg] at hfk
           rw [← hfk] at hp
           simp at hp
         · rw [if_neg hg] at hfk
           subst hfk
           exact Or.inl hk)
      | (rw [if_neg hge] at h
         obtain ⟨k, hk, hfk⟩ := List.mem_map.mp h
         by_cases hg : k.id = jid
         · rw [if_pos hg] at hfk
           rw [← hfk] at hp
           simp at hp
         · rw [if_neg hg] at hfk
           subst hfk
           exact Or.inl hk)
  | replay jid mr now =>
    unfold applyOp at h
    dsimp only at h
    cases hf : s.jobs.find? (fun k => decide (k.id = jid)) with
    | none =>
      rw [retry_notFound hf] at h
      exact Or.inl h
    | some j =>
      by_cases hd : j.state = JState.dead
      · unfold retry_job at h
        rw [hf] at h
        dsimp only at h
        rw [if_pos hd] at h
        dsimp only at h
        obtain ⟨k, hk, hfk⟩ := List.mem_map.mp h
        by_cases hg : k.id = jid
        · rw [if_pos hg] at hfk
          rw [← hfk] at hp
          simp at hp
        · rw [if_neg hg] at hfk
          subst hfk
          exact Or.inl hk
      · rw [retry_notInDLQ hf hd] at h
        exact Or.inl h

/-
Concrete fixtures used by witnesses and counterexamples.
-/

def baseJob : Job :=
  { id := "j0"
    command := "cmd"
    state := JState.pending
    attempts := 0
    max_retries := 3
    created_at := 0
    updated_at := 0
    started_at := none
    finished_at := none
    result_code := none
    last_error := none
    next_run_at := none
    stdout := none
    stderr := none
    priority := 0 }

def jdW : JobData :=
  { id := "w1", command := "c", max_retries := none, next_run_at := none, priority := none }

def opsW : List Op := [Op.enq jdW 0, Op.claim 1]

def jobW : Job := claimUpdate 1 (newJob jdW 0)

def jobFut : Job := { baseJob with id := "fut", next_run_at := some 99 }

def sFut : Store := { jobs := [jobFut], config := [] }

def pId : String := "p1"

def jobP : Job := { baseJob with id := pId, state := JState.processing, attempts := 3 }

def sP : Store := { jobs := [jobP], config := [] }

def dId : String := "d1"

def jobD : Job := { baseJob with id := dId, state := JState.dead, attempts := 3 }

def sD : Store := { jobs := [jobD], config := [] }

def jobDr : Job :=
  { jobD with state := JState.pending, attempts := 0, next_run_at := none, updated_at := 9 }

def cId : String := "c1"

def jobC : Job :=
  { baseJob with
    id := cId
    state := JState.completed
    finished_at := some 2
    result_code := some 0 }

def sC : Store := { jobs := [jobC], config := [] }

def nId : String := "n1"

def jobN : Job :=
  { baseJob with id := nId, state := JState.processing, attempts := 1, next_run_at := some 5 }

def sN : Store := { jobs := [jobN], config := [] }

def sId : String := "s1"

def jobS : Job := { baseJob with id := sId, started_at := some 3, attempts := 1 }

def sS : Store := { jobs := [jobS], config := [] }

def oId : String := "o1"

def jobO : Job := { baseJob with id := oId, state := JState.processing, attempts := 1 }

def sO : Store := { jobs := [jobO], config := [] }

def eAcute : Char := 'é'

def bigOut : List Char := List.replicate 10001 eAcute

def vSeven : String := "7"

def bId : String := "b"

/-
Claim theorems.
-/

/-- C1: claim_job moves a job to processing only through the single
conditional update guarded on state = pending, which increments attempts by
exactly one; a zero-row guarded update rolls back and returns no job; hence
a job enters processing only from pending, and over any operation sequence
a job's attempts equals the number of successful claims since its insert or
its last DLQ replay (the ghost counter). -/
theorem C1_claim_guard :
    (∀ (s : Store) (jid : String) (now : Nat),
      (s.jobs.filter (fun k => decide (k.id = jid ∧ k.state = JState.pending))).length = 0 →
      claimAttempt s jid now = (none, s))
    ∧ (∀ (s : Store) (op : Op) (j' : Job), j' ∈ (applyOp s op).jobs →
        j'.state = JState.processing →
        j' ∈ s.jobs ∨ ∃ j ∈ s.jobs, ∃ n, j.state = JState.pending ∧
          j' = claimUpdate n j ∧ j'.attempts = j.attempts + 1)
    ∧ (∀ ops : List Op, ∀ j ∈ (runOps ops).1.jobs, j.attempts = (runOps ops).2 j.id) := by
  refine ⟨?_, ?_, ?_⟩
  · intro s jid now h
    unfold claimAttempt
    dsimp only
    rw [if_pos h]
  · intro s op j' h hp
    rcases processing_from_pending op h hp with h1 | ⟨j, hj, n, hjp, hje⟩
    · exact Or.inl h1
    · refine Or.inr ⟨j, hj, n, hjp, hje, ?_⟩
      rw [hje]
      rfl
  · intro ops j hj
    exact (runOps_inv ops).2 j hj

/-- C1 witness: after one enqueue and one claim, the claimed job's attempts
field equals the ghost claim counter at its id (both are 1). -/
theorem C1_witness :
    jobW ∈ (runOps opsW).1.jobs ∧ jobW.attempts = (runOps opsW).2 jobW.id :=
  ⟨by decide, C1_claim_guard.2.2 opsW jobW (by decide)⟩

/-- C2: when an eligible pending job exists, claim_job selects an eligible
pending job maximal by priority then earliest created_at (so future
next_run_at rows are never selected); with no eligible pending job it
returns no job and leaves the store unchanged. -/
theorem C2_claim_ordering :
    ∀ (s : Store) (now : Nat),
      ((∀ j ∈ s.jobs, eligible now j = false) → claim_job s now = (none, s))
      ∧ (∀ j, claimSelect s now = some j →
          j ∈ s.jobs ∧ j.state = JState.pending ∧
          (j.next_run_at = none ∨ ∃ t, j.next_run_at = some t ∧ t ≤ now) ∧
          ∀ k ∈ s.jobs, eligible now k = true →
            k.priority < j.priority ∨ (k.priority = j.priority ∧ j.created_at ≤ k.created_at))
      ∧ ((∃ j ∈ s.jobs, eligible now j = true) →
          ∃ c j', claimSelect s now = some c ∧ (claim_job s now).1 = some j' ∧ j'.id = c.id) := by
  intro s now
  refine ⟨claim_none_of_no_eligible, ?_, claim_some_of_eligible⟩
  intro j hj
  have hm := claimSelect_mem hj
  have he := eligible_iff.mp hm.2
  exact ⟨hm.1, he.1, he.2, claimSelect_optimal hj⟩

/-- C2 witness: a store whose only pending job has a future next_run_at
yields no job. -/
theorem C2_witness : claim_job sFut 5 = (none, sFut) :=
  (C2_claim_ordering sFut 5).1 (by decide)

/-- C3: mark_job_failed branches on attempts_so_far ≥ max_retries — the DLQ
path sets dead with finished_at, the retry path returns the job to pending
with next_run_at = now + backoff_base ^ attempts_so_far and does not touch
finished_at; a job newly dead implies attempts_so_far ≥ max_retries; the
attempts the worker passes are the post-increment value read back from the
claim (claim_job returns attempts = previous + 1), through workerFailPath. -/
theorem C3_fail_branches :
    (∀ (s : Store) (jid : String) (rc : Int) (e : List Char) (mr bb att : Nat)
        (out errs : Option (List Char)) (now : Nat),
      (mr ≤ att → ∀ j ∈ s.jobs, j.id = jid →
        ∃ j' ∈ (mark_job_failed s jid rc e mr bb att out errs now).jobs,
          j'.id = jid ∧ j'.state = JState.dead ∧ j'.finished_at = some now ∧
          j'.attempts = j.attempts)
      ∧ (att < mr → ∀ j ∈ s.jobs, j.id = jid →
        ∃ j' ∈ (mark_job_failed s jid rc e mr bb att out errs now).jobs,
          j'.id = jid ∧ j'.state = JState.pending ∧
          j'.next_run_at = some (now + bb ^ att) ∧ j'.finished_at = j.finished_at ∧
          j'.attempts = j.attempts)
      ∧ (∀ j' ∈ (mark_job_failed s jid rc e mr bb att out errs now).jobs,
          j'.state = JState.dead → j' ∈ s.jobs ∨ mr ≤ att))
    ∧ (∀ (s : Store) (now : Nat) (j' : Job), (claim_job s now).1 = some j' →
        (s.jobs.map Job.id).Nodup →
        ∃ j ∈ s.jobs, j.state = JState.pending ∧ j'.attempts = j.attempts + 1 ∧
          j'.id = j.id ∧ j'.max_retries = j.max_retries)
    ∧ (∀ (s : Store) (job : Job) (rc : Int) (e : List Char) (bb : Nat)
        (out errs : Option (List Char)) (now : Nat),
        workerFailPath s job rc e bb out errs now =
          mark_job_failed s job.id rc e job.max_retries bb job.attempts out errs now) := by
  refine ⟨?_, ?_, ?_⟩
  · intro s jid rc e mr bb att out errs now
    refine ⟨?_, ?_, ?_⟩
    · intro hge j hj hid
      obtain ⟨j', hmem, hjid, hst, hrc, hfin, hupd, herr, hso, hse, hat⟩ :=
        fail_dead_touched hge hj hid
      exact ⟨j', hmem, hjid.trans hid, hst, hfin, hat⟩
    · intro hlt j hj hid
      obtain ⟨j', hmem, hjid, hst, hrc, hnr, hupd, herr, hso, hse, hat, hfin⟩ :=
        fail_retry_touched hlt hj hid
      exact ⟨j', hmem, hjid.trans hid, hst, hnr, hfin, hat⟩
    · intro j' hmem hst
      exact fail_new_dead hmem hst
  · intro s now j' h hnd
    obtain ⟨j, hj, hjp, rfl⟩ := claim_some_char h hnd
    exact ⟨j, hj, hjp, rfl, rfl, rfl⟩
  · intro s job rc e bb out errs now
    rfl

/-- C3 witness: a processing job with attempts = 3 and max_retries = 3 is
moved to dead with finished_at set. -/
theorem C3_witness :
    ∃ j' ∈ (mark_job_failed sP pId 1 [] 3 2 3 none none 7).jobs,
      j'.id = pId ∧ j'.state = JState.dead ∧ j'.finished_at = some 7 ∧
      j'.attempts = jobP.attempts :=
  (C3_fail_branches.1 sP pId 1 [] 3 2 3 none none 7).1 (by decide) jobP (by decide) (by decide)

/-- C4: retry_job answers notFound when no row has the id and notInDLQ when
the found row is not dead, leaving the store unchanged in both error cases;
on a dead row it succeeds and resets the job to pending with attempts 0,
next_run_at null, updated_at = now, overwriting max_retries exactly when the
optional argument is supplied. -/
theorem C4_retry_errors :
    ∀ (s : Store) (jid : String) (mr : Option Nat) (now : Nat),
      (s.jobs.find? (fun k => decide (k.id = jid)) = none →
        retry_job s jid mr now = (some RetryErr.notFound, s))
      ∧ (∀ j, s.jobs.find? (fun k => decide (k.id = jid)) = some j →
          ¬ j.state = JState.dead →
          retry_job s jid mr now = (some RetryErr.notInDLQ, s))
      ∧ (∀ j, s.jobs.find? (fun k => decide (k.id = jid)) = some j →
          j.state = JState.dead →
          (retry_job s jid mr now).1 = none ∧
          ∀ k ∈ s.jobs, k.id = jid →
            ∃ k' ∈ (retry_job s jid mr now).2.jobs,
              k'.id = jid ∧ k'.state = JState.pending ∧ k'.attempts = 0 ∧
              k'.next_run_at = none ∧ k'.updated_at = now ∧
              k'.max_retries = mr.getD k.max_retries) := by
  intro s jid mr now
  refine ⟨retry_notFound, ?_, ?_⟩
  · intro j hf hs
    exact retry_notInDLQ hf hs
  · intro j hf hd
    refine ⟨retry_success_fst hf hd, ?_⟩
    intro k hk hid
    exact retry_success_touched hf hd hk hid

/-- C4 witness: replaying a dead job with max_retries = 5 resets it to
pending with attempts 0, next_run_at null and max_retries 5. -/
theorem C4_witness :
    ∃ k' ∈ (retry_job sD dId (some 5) 9).2.jobs,
      k'.id = dId ∧ k'.state = JState.pending ∧ k'.attempts = 0 ∧
      k'.next_run_at = none ∧ k'.updated_at = 9 ∧
      k'.max_retries = (some 5).getD jobD.max_retries :=
  ((C4_retry_errors sD dId (some 5) 9).2.2 jobD (by decide) (by decide)).2
    jobD (by decide) (by decide)

/-- C5 counterexample: mark_job_failed carries no state guard, so applying
it to a job already in the terminal state completed modifies that job
(it becomes dead), refuting the claim that every store operation other than
retry_job leaves a terminal job unchanged. -/
theorem C5_cex :
    jobC.state = JState.completed ∧
    ¬ (mark_job_failed sC cId 1 [] 3 2 5 none none 10).jobs = sC.jobs := by
  exact ⟨rfl, by decide⟩

/-- C5 amended: only the guarded operations respect terminal states:
claim_job never modifies a job whose state is not pending (in particular a
completed or dead job), and retry_job modifies nothing unless the row found
at the id is dead; mark_job_completed and mark_job_failed update by id with
no state guard, so terminal immutability relies on worker discipline. -/
theorem C5_guarded_ops :
    (∀ (s : Store) (now : Nat) (j : Job), j ∈ s.jobs → ¬ j.state = JState.pending →
      j ∈ (claim_job s now).2.jobs)
    ∧ (∀ (s : Store) (jid : String) (mr : Option Nat) (now : Nat),
        (∀ j ∈ s.jobs, j.id = jid → ¬ j.state = JState.dead) →
        (retry_job s jid mr now).2 = s) :=
  ⟨fun _ _ _ hj hs => claim_nonpending_untouched hj hs,
   fun _ _ _ _ h => retry_unchanged h⟩

/-- C5 witness: the completed job jobC is untouched by a claim attempt. -/
theorem C5_witness : jobC ∈ (claim_job sC 5).2.jobs :=
  C5_guarded_ops.1 sC 5 jobC (by decide) (by decide)

/-- C6 counterexample: completing a job whose next_run_at was set by an
earlier retry leaves next_run_at set (some 5), refuting the claim that
mark_job_completed clears it. -/
theorem C6_cex :
    (mark_job_completed sN nId 0 none none 9).jobs.map
        (fun j => (j.state, j.next_run_at)) = [(JState.completed, some 5)] ∧
    ¬ (some 5 = (none : Option Nat)) := by
  exact ⟨by decide, by decide⟩

/-- C6 amended: a successful retry_job sets next_run_at to null, but
mark_job_completed leaves every job's next_run_at unchanged, so a value set
by an earlier retry persists after successful termination. -/
theorem C6_next_run_at :
    (∀ (s : Store) (jid : String) (mr : Option Nat) (now : Nat) (j' : Job),
      (retry_job s jid mr now).1 = none →
      j' ∈ (retry_job s jid mr now).2.jobs → j'.id = jid → j'.next_run_at = none)
    ∧ (∀ (s : Store) (jid : String) (rc : Int) (out err : Option (List Char)) (now : Nat)
        (j : Job), j ∈ s.jobs →
        ∃ j' ∈ (mark_job_completed s jid rc out err now).jobs,
          j'.id = j.id ∧ j'.next_run_at = j.next_run_at) := by
  constructor
  · intro s jid mr now j' h1 hj' hid
    exact (retry_success_fields h1 hj' hid).1
  · intro s jid rc out err now j hj
    by_cases hid : j.id = jid
    · obtain ⟨j', hmem, hjid, hst, hrc, hfin, hupd, hso, hse, hat, hnr⟩ :=
        complete_touched hj hid
      exact ⟨j', hmem, hjid, hnr⟩
    · exact ⟨j, complete_untouched hj hid, rfl, rfl⟩

/-- C6 witness: after replaying the dead job jobD, the resulting row jobDr
has next_run_at null. -/
theorem C6_witness : jobDr.next_run_at = none :=
  C6_next_run_at.1 sD dId none 9 jobDr (by decide) (by decide) (by decide)

/-- C7 counterexample: a pending job with started_at = some 3 is claimed
successfully at time 7 and its started_at becomes some 7 — claim_job
overwrites started_at on every claim, refuting the claim that a later claim
leaves it unchanged. -/
theorem C7_cex :
    (claim_job sS 7).1.isSome = true ∧
    (claim_job sS 7).2.jobs.map Job.started_at = [some 7] ∧
    sS.jobs.map Job.started_at = [some 3] ∧
    ¬ ([(some 7 : Option Nat)] = [(some 3 : Option Nat)]) := by
  exact ⟨by decide, by decide, by decide, by decide⟩

/-- C7 amended: every successful claim sets started_at := now (overwriting
any previous value) while also setting state to processing, updated_at to
now and incrementing attempts; any job modified by claim_job has
started_at = some now. -/
theorem C7_started_at :
    (∀ (s : Store) (now : Nat) (j' : Job), (claim_job s now).1 = some j' →
      (s.jobs.map Job.id).Nodup →
      j'.started_at = some now ∧ j'.state = JState.processing ∧ j'.updated_at = now ∧
      ∃ j ∈ s.jobs, j.state = JState.pending ∧ j'.id = j.id ∧ j'.attempts = j.attempts + 1)
    ∧ (∀ (s : Store) (now : Nat) (j' : Job), j' ∈ (claim_job s now).2.jobs →
        ¬ j' ∈ s.jobs → j'.started_at = some now) := by
  constructor
  · intro s now j' h hnd
    obtain ⟨j, hj, hjp, rfl⟩ := claim_some_char h hnd
    exact ⟨rfl, rfl, rfl, j, hj, hjp, rfl, rfl⟩
  · intro s now j' h hnot
    rcases claim_store_mem h with h1 | ⟨j, hj, hjp, rfl⟩
    · exact absurd h1 hnot
    · rfl

/-- C7 witness: claiming jobS (started_at = some 3) at time 7 yields a job
with started_at = some 7, state processing and attempts incremented. -/
theorem C7_witness :
    (claimUpdate 7 jobS).started_at = some 7 ∧
    (claimUpdate 7 jobS).state = JState.processing ∧
    (claimUpdate 7 jobS).updated_at = 7 ∧
    ∃ j ∈ sS.jobs, j.state = JState.pending ∧ (claimUpdate 7 jobS).id = j.id ∧
      (claimUpdate 7 jobS).attempts = j.attempts + 1 :=
  C7_started_at.1 sS 7 (claimUpdate 7 jobS) (by decide) (by decide)

/-- C8 counterexample: storing a 10,001-character stdout of two-byte
characters keeps the first 10,000 characters, i.e. 20,000 bytes — more than
the claimed 10,000-byte bound, refuting byte-count truncation. -/
theorem C8_cex :
    (mark_job_completed sO oId 0 (some bigOut) none 9).jobs.map
        (fun j => j.stdout.map byteLen) = [some 20000] ∧
    ¬ (20000 ≤ 10000) := by
  constructor
  · have hne : ¬ bigOut = [] := by
      intro hx
      have hlen := congrArg List.length hx
      rw [show bigOut = List.replicate 10001 eAcute from rfl, List.length_replicate] at hlen
      simp at hlen
    have htr : pyTruncate 10000 (some bigOut) = some (List.replicate 10000 eAcute) := by
      unfold pyTruncate
      dsimp only
      rw [if_neg hne, show bigOut = List.replicate 10001 eAcute from rfl, List.take_replicate]
      norm_num
    have hsz : eAcute.utf8Size = 2 := by decide
    have hby : byteLen (List.replicate 10000 eAcute) = 20000 := by
      rw [byteLen_replicate, hsz]
    unfold mark_job_completed
    dsimp only
    rw [show sO.jobs = [jobO] from rfl]
    simp only [List.map_cons, List.map_nil]
    rw [if_pos (show jobO.id = oId from rfl)]
    dsimp only
    rw [htr]
    simp only [Option.map_some']
    rw [hby]
  · decide

/-- C8 amended: stdout and stderr are truncated to the first 10,000
characters (code points) and last_error to the first 2,000 characters, in
both mark_job_completed and mark_job_failed; the stored text never exceeds
the limit in character count, and an input longer than the limit keeps
exactly the first 10,000 (resp. 2,000) characters. -/
theorem C8_truncation :
    (∀ (s : Store) (jid : String) (rc : Int) (out err : Option (List Char)) (now : Nat)
        (j : Job), j ∈ s.jobs → j.id = jid →
      ∃ j' ∈ (mark_job_completed s jid rc out err now).jobs,
        j'.id = jid ∧ j'.stdout = pyTruncate 10000 out ∧ j'.stderr = pyTruncate 10000 err)
    ∧ (∀ (s : Store) (jid : String) (rc : Int) (e : List Char) (mr bb att : Nat)
        (out errs : Option (List Char)) (now : Nat) (j : Job), j ∈ s.jobs → j.id = jid →
      ∃ j' ∈ (mark_job_failed s jid rc e mr bb att out errs now).jobs,
        j'.id = jid ∧ j'.stdout = pyTruncate 10000 out ∧ j'.stderr = pyTruncate 10000 errs ∧
        j'.last_error = pyTruncate 2000 (some e))
    ∧ (∀ (n : Nat) (t : Option (List Char)) (u : List Char), pyTruncate n t = some u →
        u.length ≤ n ∧ ∃ v, t = some v ∧ u = v.take n)
    ∧ (∀ (n : Nat) (v : List Char), ¬ v = [] → n ≤ v.length →
        pyTruncate n (some v) = some (v.take n) ∧ (v.take n).length = n) := by
  refine ⟨?_, ?_, ?_, ?_⟩
  · intro s jid rc out err now j hj hid
    obtain ⟨j', hmem, hjid, hst, hrc, hfin, hupd, hso, hse, hat, hnr⟩ :=
      complete_touched hj hid
    exact ⟨j', hmem, hjid.trans hid, hso, hse⟩
  · intro s jid rc e mr bb att out errs now j hj hid
    by_cases hge : mr ≤ att
    · obtain ⟨j', hmem, hjid, hst, hrc, hfin, hupd, herr, hso, hse, hat⟩ :=
        fail_dead_touched hge hj hid
      exact ⟨j', hmem, hjid.trans hid, hso, hse, herr⟩
    · have hlt : att < mr := by omega
      obtain ⟨j', hmem, hjid, hst, hrc, hnr, hupd, herr, hso, hse, hat, hfin⟩ :=
        fail_retry_touched hlt hj hid
      exact ⟨j', hmem, hjid.trans hid, hso, hse, herr⟩
  · intro n t u h
    exact pyTruncate_some h
  · intro n v hne hlen
    exact pyTruncate_exact hne hlen

def shortList : List Char := ['a', 'b', 'c', 'd']

/-- C8 witness: truncating a 4-character string to 3 characters keeps
exactly its first 3 characters. -/
theorem C8_witness :
    (shortList.take 3).length ≤ 3 ∧
    ∃ v, (some shortList : Option (List Char)) = some v ∧ shortList.take 3 = v.take 3 :=
  C8_truncation.2.2.1 3 (some shortList) (shortList.take 3) (by decide)

/-- C9: for every recognized (canonical) key, get_config on a store with no
config entries returns the documented default; set_config then get_config
round-trips for canonical keys; a hyphen-form key is normalized before
lookup, so get_config reads the same entry as the underscore form. -/
theorem C9_config :
    (∀ js : List Job,
      get_config { jobs := js, config := [] } cMaxRetries = some dMaxRetries ∧
      get_config { jobs := js, config := [] } cBackoffBase = some dBackoffBase ∧
      get_config { jobs := js, config := [] } cPollInterval = some dPollInterval ∧
      get_config { jobs := js, config := [] } cDbPath = some dDbPath)
    ∧ (∀ (s : Store) (v k : String),
        (k = cMaxRetries ∨ k = cBackoffBase ∨ k = cPollInterval ∨ k = cDbPath) →
        get_config (set_config s k v) k = some v)
    ∧ (∀ s : Store,
        get_config s hMaxRetries = get_config s cMaxRetries ∧
        get_config s hBackoffBase = get_config s cBackoffBase ∧
        get_config s hPollInterval = get_config s cPollInterval ∧
        get_config s hDbPath = get_config s cDbPath) := by
  refine ⟨?_, ?_, ?_⟩
  · intro js
    exact ⟨rfl, rfl, rfl, rfl⟩
  · intro s v k hk
    rcases hk with rfl | rfl | rfl | rfl
    · exact get_config_set_self (by decide)
    · exact get_config_set_self (by decide)
    · exact get_config_set_self (by decide)
    · exact get_config_set_self (by decide)
  · intro s
    exact ⟨get_config_normalize_eq (by decide) (by decide),
      get_config_normalize_eq (by decide) (by decide),
      get_config_normalize_eq (by decide) (by decide),
      get_config_normalize_eq (by decide) (by decide)⟩

/-- C9 witness: writing max_retries = "7" then reading it back yields "7". -/
theorem C9_witness :
    get_config (set_config emptyStore cMaxRetries vSeven) cMaxRetries = some vSeven :=
  C9_config.2.1 emptyStore vSeven cMaxRetries (Or.inl rfl)

/-- C10: with a job id absent from the store, mark_job_completed and
mark_job_failed return normally and leave the store unchanged (the UPDATE
matches zero rows). -/
theorem C10_missing_id_noop :
    ∀ (s : Store) (jid : String) (rc : Int) (e : List Char) (mr bb att : Nat)
      (out err : Option (List Char)) (now : Nat),
      (∀ j ∈ s.jobs, ¬ j.id = jid) →
      mark_job_completed s jid rc out err now = s ∧
      mark_job_failed s jid rc e mr bb att out err now = s :=
  fun _ _ _ _ _ _ _ _ _ _ h => ⟨complete_noop h, fail_noop h⟩

/-- C10 witness: marking a nonexistent id completed or failed leaves the
concrete store sC unchanged. -/
theorem C10_witness :
    mark_job_completed sC bId 0 none none 5 = sC ∧
    mark_job_failed sC bId 1 [] 3 2 1 none none 5 = sC :=
  C10_missing_id_noop sC bId 0 [] 3 2 1 none none 5 (by decide)

end QueueCtl

